import Mathlib

/-!
Shallow embedding, over the reals, of the sphere ray tracer: the vector and
ray primitives, the analytic sphere intersection (both the half-b form and
the baseline general-quadratic form), the scene visibility queries, the
recursive Phong shading function, camera ray generation, and the row-major
pixel output contract.  C++ doubles are modelled as real numbers, `sqrt` as
`Real.sqrt`, `pow` as `Real.rpow`; the closest-hit query's sentinel pair
(`closest_t = DBL_MAX`, `hit_idx = -1`, return value `false`) is modelled as
`none`, and a successful query (`return true`) as `some (closest_t, hit_idx)`.
-/

set_option maxHeartbeats 1000000

noncomputable section

/-- Three-component real vector, `struct Vec3`. -/
@[ext]
structure Vec3 where
  x : ℝ
  y : ℝ
  z : ℝ

instance : Inhabited Vec3 := ⟨⟨0, 0, 0⟩⟩

/-- Componentwise addition, `Vec3::operator+`. -/
def Vec3.add (a b : Vec3) : Vec3 := ⟨a.x + b.x, a.y + b.y, a.z + b.z⟩

instance : Add Vec3 := ⟨Vec3.add⟩

/-- Componentwise subtraction, `Vec3::operator-`. -/
def Vec3.sub (a b : Vec3) : Vec3 := ⟨a.x - b.x, a.y - b.y, a.z - b.z⟩

instance : Sub Vec3 := ⟨Vec3.sub⟩

/-- Scaling by a scalar, `Vec3::operator*`. -/
def Vec3.scale (v : Vec3) (t : ℝ) : Vec3 := ⟨v.x * t, v.y * t, v.z * t⟩

instance : HMul Vec3 ℝ Vec3 := ⟨Vec3.scale⟩

/-- Division by a scalar, `Vec3::operator/`. -/
def Vec3.divide (v : Vec3) (t : ℝ) : Vec3 := ⟨v.x / t, v.y / t, v.z / t⟩

instance : HDiv Vec3 ℝ Vec3 := ⟨Vec3.divide⟩

/-- Dot product, `Vec3::dot`. -/
def Vec3.dot (a b : Vec3) : ℝ := a.x * b.x + a.y * b.y + a.z * b.z

/-- Cross product, `Vec3::cross`. -/
def Vec3.cross (a b : Vec3) : Vec3 :=
  ⟨a.y * b.z - a.z * b.y, a.z * b.x - a.x * b.z, a.x * b.y - a.y * b.x⟩

/-- Euclidean length, `Vec3::length`. -/
def Vec3.length (v : Vec3) : ℝ := Real.sqrt (v.x * v.x + v.y * v.y + v.z * v.z)

/-- Squared length, `Vec3::lengthSquared`. -/
def Vec3.lengthSquared (v : Vec3) : ℝ := v.x * v.x + v.y * v.y + v.z * v.z

/-- Normalization, `Vec3::normalize`: divide by the length when it is
positive, otherwise return the zero vector. -/
def Vec3.normalize (v : Vec3) : Vec3 :=
  if 0 < v.length then v / v.length else ⟨0, 0, 0⟩

/-- Reflection about a normal, `Vec3::reflect`:
`*this - normal * 2 * this->dot(normal)`. -/
def Vec3.reflect (v n : Vec3) : Vec3 := v - n * (2 : ℝ) * v.dot n

/-- Colors are vectors, `using Color = Vec3`. -/
abbrev Color := Vec3

/-- Ray, `struct Ray`: an origin and a direction. -/
structure Ray where
  origin : Vec3
  direction : Vec3

/-- Ray constructor `Ray::Ray(o, d)`: the supplied direction is normalized
at construction time. -/
def Ray.mk' (o d : Vec3) : Ray := ⟨o, d.normalize⟩

/-- Point along a ray, `Ray::at`. -/
def Ray.at (r : Ray) (t : ℝ) : Vec3 := r.origin + r.direction * t

/-- Phong material, `struct Material`. -/
structure Material where
  color : Color
  ambient : ℝ
  diffuse : ℝ
  specular : ℝ
  shininess : ℝ
  reflectivity : ℝ

/-- Default material values from the `Material` constructor defaults. -/
instance : Inhabited Material := ⟨⟨⟨1, 1, 1⟩, 0.1, 0.7, 0.6, 32, 0.3⟩⟩

/-- Sphere primitive, `struct Sphere`. -/
structure Sphere where
  center : Vec3
  radius : ℝ
  material : Material

/-- Placeholder sphere used only as the out-of-bounds default of `List.getD`;
every access in the development is guarded by an index bound. -/
instance : Inhabited Sphere := ⟨⟨⟨0, 0, 0⟩, 0, default⟩⟩

/-- Optimized sphere intersection `Sphere::intersect` from `raytracer.cpp`:
the half-b form, assuming a normalized ray direction.  Returns `some t` where
the C++ writes `t` through the out-parameter and returns `true`, and `none`
where it returns `false`. -/
def Sphere.intersect (sph : Sphere) (r : Ray) : Option ℝ :=
  let oc := r.origin - sph.center
  let bHalf := oc.dot r.direction
  let c := oc.lengthSquared - sph.radius * sph.radius
  let discriminant := bHalf * bHalf - c
  if discriminant < 0 then none
  else
    let sqrtDisc := Real.sqrt discriminant
    let t1 := -bHalf - sqrtDisc
    if 0.001 < t1 then some t1
    else
      let t2 := -bHalf + sqrtDisc
      if 0.001 < t2 then some t2
      else none

/-- Baseline sphere intersection `Sphere::intersect` from `src/main.cpp`:
the general quadratic form with `a = d·d`, `b = 2·(o−c)·d`, and discriminant
`b² − 4ac`. -/
def Sphere.intersectBaseline (sph : Sphere) (r : Ray) : Option ℝ :=
  let oc := r.origin - sph.center
  let a := r.direction.dot r.direction
  let b := 2 * oc.dot r.direction
  let c := oc.dot oc - sph.radius * sph.radius
  let discriminant := b * b - 4 * a * c
  if discriminant < 0 then none
  else
    let t1 := (-b - Real.sqrt discriminant) / (2 * a)
    let t2 := (-b + Real.sqrt discriminant) / (2 * a)
    if 0.001 < t1 then some t1
    else if 0.001 < t2 then some t2
    else none

/-- Outward normal at a surface point, `Sphere::getNormal`. -/
def Sphere.getNormal (sph : Sphere) (point : Vec3) : Vec3 :=
  (point - sph.center).normalize

/-- Point light, `struct Light`. -/
structure Light where
  position : Vec3
  color : Color
  intensity : ℝ

/-- Scene, `class Scene`: ordered spheres and lights plus a background
color. -/
structure Scene where
  spheres : List Sphere
  lights : List Light
  background : Color

/-- One step of the closest-hit scan: accept the candidate intersection when
there is no current best or when it is strictly closer (`t < closest_t`). -/
def intersectStep (r : Ray) (sph : Sphere) (i : ℕ) (acc : Option (ℝ × ℕ)) :
    Option (ℝ × ℕ) :=
  match sph.intersect r, acc with
  | some t, none => some (t, i)
  | some t, some (ct, ci) => if t < ct then some (t, i) else some (ct, ci)
  | none, a => a

/-- Linear scan of `Scene::intersect` over the remaining spheres, carrying
the index of the next sphere and the best hit so far. -/
def intersectAux (r : Ray) : List Sphere → ℕ → Option (ℝ × ℕ) → Option (ℝ × ℕ)
  | [], _, acc => acc
  | sph :: rest, i, acc => intersectAux r rest (i + 1) (intersectStep r sph i acc)

/-- Closest-hit query `Scene::intersect`: scan all spheres tracking the
minimum valid `t` and its index. -/
def Scene.intersect (s : Scene) (r : Ray) : Option (ℝ × ℕ) :=
  intersectAux r s.spheres 0 none

/-- Any-hit shadow query `Scene::intersectShadow`: true as soon as any sphere
intersection satisfies `t > 0.001 && t < max_distance`. -/
def Scene.intersectShadow (s : Scene) (r : Ray) (maxDistance : ℝ) : Bool :=
  s.spheres.any fun sph =>
    match sph.intersect r with
    | some t => decide (0.001 < t ∧ t < maxDistance)
    | none => false

/-- Convex reflection blend from `Scene::trace`:
`color * (1.0 - refl) + reflect_color * refl`. -/
def blend (color reflectColor : Color) (refl : ℝ) : Color :=
  color * (1 - refl) + reflectColor * refl

/-- Local (ambient plus per-light diffuse and specular) color of the hit
`(t, i)`, the part of `Scene::trace` before the reflection branch: start from
the ambient term and, for each light in order, add the diffuse and specular
contributions unless the shadow query bounded by the light distance reports
an occluder. -/
def Scene.localColor (s : Scene) (r : Ray) (t : ℝ) (i : ℕ) : Color :=
  let sph := s.spheres.getD i default
  let hitPoint := r.at t
  let normal := sph.getNormal hitPoint
  let viewDir := (r.origin - hitPoint).normalize
  s.lights.foldl
    (fun color light =>
      let lightDir := (light.position - hitPoint).normalize
      let lightDistance := (light.position - hitPoint).length
      let inShadow := s.intersectShadow (Ray.mk' hitPoint lightDir) lightDistance
      if inShadow then color
      else
        let diff := max 0 (normal.dot lightDir)
        let diffuse : Color := sph.material.color * sph.material.diffuse * diff * light.intensity
        let reflectDir := (lightDir * (-1 : ℝ)).reflect normal
        let spec := Real.rpow (max 0 (viewDir.dot reflectDir)) sph.material.shininess
        let specular : Color := light.color * sph.material.specular * spec * light.intensity
        color + (diffuse + specular))
    (sph.material.color * sph.material.ambient)

/-- Recursive shading function `Scene::trace`: return the background at
`depth > 3` or on a miss; otherwise shade the closest hit and, when the
material is reflective and `depth < 3`, blend in the recursively traced
reflection at `depth + 1`. -/
def Scene.trace (s : Scene) (r : Ray) (depth : ℕ) : Color :=
  if 3 < depth then s.background
  else
    match s.intersect r with
    | none => s.background
    | some (t, i) =>
      let sph := s.spheres.getD i default
      let hitPoint := r.at t
      let normal := sph.getNormal hitPoint
      let viewDir := (r.origin - hitPoint).normalize
      let color := s.localColor r t i
      if h : 0 < sph.material.reflectivity ∧ depth < 3 then
        let reflectDir := (viewDir * (-1 : ℝ)).reflect normal
        let reflectColor := s.trace (Ray.mk' hitPoint reflectDir) (depth + 1)
        blend color reflectColor sph.material.reflectivity
      else color
termination_by 4 - depth
decreasing_by
  omega

/-- Fuel-indexed variant of `Scene.trace` that returns `none` when the fuel
runs out before the recursion bottoms out; it makes the bounded-recursion
claim a theorem rather than a side effect of the definition. -/
def Scene.traceF (s : Scene) : ℕ → Ray → ℕ → Option Color
  | 0, _, _ => none
  | fuel + 1, r, depth =>
    if 3 < depth then some s.background
    else
      match s.intersect r with
      | none => some s.background
      | some (t, i) =>
        let sph := s.spheres.getD i default
        let hitPoint := r.at t
        let normal := sph.getNormal hitPoint
        let viewDir := (r.origin - hitPoint).normalize
        let color := s.localColor r t i
        if 0 < sph.material.reflectivity ∧ depth < 3 then
          let reflectDir := (viewDir * (-1 : ℝ)).reflect normal
          (s.traceF fuel (Ray.mk' hitPoint reflectDir) (depth + 1)).map
            (fun reflectColor => blend color reflectColor sph.material.reflectivity)
        else some color

/-- Per-channel clamp to `[0, 1]`, the free function `clamp`. -/
def clamp (c : Color) : Color :=
  ⟨min 1 (max 0 c.x), min 1 (max 0 c.y), min 1 (max 0 c.z)⟩

/-- Pinhole camera, `class Camera`. -/
structure Camera where
  position : Vec3
  target : Vec3
  up : Vec3
  fov : ℝ

/-- Primary ray generation `Camera::getRay` from normalized image
coordinates and the aspect ratio. -/
def Camera.getRay (cam : Camera) (u v aspect : ℝ) : Ray :=
  let theta := cam.fov * Real.pi / 180
  let hh := Real.tan (theta / 2)
  let viewportHeight := 2 * hh
  let viewportWidth := aspect * viewportHeight
  let w := (cam.position - cam.target).normalize
  let uVec := (cam.up.cross w).normalize
  let vVec := w.cross uVec
  let horizontal := uVec * viewportWidth
  let vertical := vVec * viewportHeight
  let lowerLeft := cam.position - horizontal / (2 : ℝ) - vertical / (2 : ℝ) - w
  Ray.mk' cam.position (lowerLeft + horizontal * u + vertical * v - cam.position)

/-- Channel conversion `Uint8(255.99 * x)` applied to a clamped channel:
scale by 255.99 and truncate toward zero. -/
def toByte (xv : ℝ) : ℕ := (Int.floor (255.99 * xv)).toNat

/-- Traced and clamped color of pixel `(i, j)`, the body of the render loop:
`u = i / (width-1)`, `v = (height-1-j) / (height-1)`, trace the camera ray
and clamp. -/
def pixelColor (s : Scene) (cam : Camera) (w h : ℕ) (i j : ℕ) : Color :=
  let u := (i : ℝ) / ((w : ℝ) - 1)
  let v := ((h : ℝ) - 1 - (j : ℝ)) / ((h : ℝ) - 1)
  clamp (s.trace (cam.getRay u v ((w : ℝ) / (h : ℝ))) 0)

/-- Packed ARGB sample of pixel `(i, j)`:
`(0xFF << 24) | (r << 16) | (g << 8) | b`. -/
def pixelValue (s : Scene) (cam : Camera) (w h : ℕ) (i j : ℕ) : ℕ :=
  let c := pixelColor s cam w h i j
  (0xFF <<< 24) ||| (toByte c.x <<< 16) ||| (toByte c.y <<< 8) ||| toByte c.z

/-- Inner loop of `Renderer::render` for one row `j`: write the packed
sample of every column `i < width` into buffer cell `j * width + i`. -/
def renderRow (s : Scene) (cam : Camera) (w h : ℕ) (buf : ℕ → ℕ) (j : ℕ) :
    ℕ → ℕ :=
  (List.range w).foldl
    (fun b i => Function.update b (j * w + i) (pixelValue s cam w h i j)) buf

/-- Rendering under an explicit row schedule: the rows are processed in the
given order, each task writing only its own row's cells.  The sequential
render is the schedule `List.range h`; a parallel run corresponds to some
other admissible order of the same rows. -/
def renderSched (s : Scene) (cam : Camera) (w h : ℕ) (rows : List ℕ) : ℕ → ℕ :=
  rows.foldl (renderRow s cam w h) (fun _ => 0)

/-- Pixel buffer produced by `Renderer::render`, as the map from buffer
index to packed sample. -/
def Renderer.render (s : Scene) (cam : Camera) (w h : ℕ) : ℕ → ℕ :=
  renderSched s cam w h (List.range h)

/-- Shadow verdict obtained from the closest-hit query restricted to the
interval `(ε, light_distance)`, following the specification's words: the
point is in shadow exactly when the globally nearest hit parameter lies
strictly between `0.001` and the light distance. -/
def shadowViaClosestHit (s : Scene) (r : Ray) (maxDistance : ℝ) : Bool :=
  match s.intersect r with
  | some (t, _) => decide (0.001 < t ∧ t < maxDistance)
  | none => false

/-- Ray–sphere quadratic named by the specification, `a·t² + b·t + c` with
`a = d·d`, `b = 2·(o−c)·d`, `c = |o−c|² − r²`; its real roots are exactly the
parameters at which the ray meets the sphere surface. -/
def sphereQuadratic (sph : Sphere) (r : Ray) (t : ℝ) : ℝ :=
  (r.direction.dot r.direction) * (t * t)
    + (2 * ((r.origin - sph.center).dot r.direction)) * t
    + ((r.origin - sph.center).dot (r.origin - sph.center)
        - sph.radius * sph.radius)

/-- Concrete ray used by the witnesses: origin `(0,0,5)`, unit direction
`(0,0,-1)`. -/
def ray0 : Ray := ⟨⟨0, 0, 5⟩, ⟨0, 0, -1⟩⟩

/-- Concrete unit sphere at the origin used by the witnesses. -/
def sphere0 : Sphere := ⟨⟨0, 0, 0⟩, 1, default⟩

/-- Concrete one-sphere scene used by the witnesses. -/
def scene0 : Scene := ⟨[sphere0], [], ⟨0.1, 0.1, 0.15⟩⟩

/-- Concrete camera used by the witnesses. -/
def camera0 : Camera := ⟨⟨0, 1, 5⟩, ⟨0, 0, 0⟩, ⟨0, 1, 0⟩, 60⟩

/-- Unfolding of `Scene.trace` at the depth cutoff. -/
lemma Scene.trace_depth_gt (s : Scene) (r : Ray) {depth : ℕ} (h : 3 < depth) :
    s.trace r depth = s.background := by
  rw [Scene.trace]
  simp [h]

/-- Unfolding of `Scene.trace` on a miss. -/
lemma Scene.trace_miss (s : Scene) (r : Ray) {depth : ℕ}
    (hm : s.intersect r = none) : s.trace r depth = s.background := by
  by_cases h : 3 < depth
  · exact s.trace_depth_gt r h
  · rw [Scene.trace]
    simp [h, hm]

/-- Unfolding of `Scene.trace` on a hit with an active reflection branch. -/
lemma Scene.trace_hit_refl (s : Scene) (r : Ray) {t : ℝ} {i : ℕ} {depth : ℕ}
    (hi : s.intersect r = some (t, i))
    (hrefl : 0 < (s.spheres.getD i default).material.reflectivity)
    (hdep : depth < 3) :
    s.trace r depth =
      blend (s.localColor r t i)
        (s.trace
          (Ray.mk' (r.at t)
            ((((r.origin - r.at t).normalize) * (-1 : ℝ)).reflect
              ((s.spheres.getD i default).getNormal (r.at t))))
          (depth + 1))
        (s.spheres.getD i default).material.reflectivity := by
  have hd : ¬ 3 < depth := by omega
  rw [Scene.trace]
  simp only [hd, if_false, hi]
  rw [dif_pos ⟨hrefl, hdep⟩]

/-- Unfolding of `Scene.trace` on a hit with an inactive reflection branch. -/
lemma Scene.trace_hit_norefl (s : Scene) (r : Ray) {t : ℝ} {i : ℕ} {depth : ℕ}
    (hi : s.intersect r = some (t, i)) (hd : ¬ 3 < depth)
    (hno : ¬ (0 < (s.spheres.getD i default).material.reflectivity ∧ depth < 3)) :
    s.trace r depth = s.localColor r t i := by
  rw [Scene.trace]
  simp only [hd, if_false, hi]
  rw [dif_neg hno]

/-- CLAIM C5: `trace` returns exactly the scene's background color in both
terminal states: when the closest-hit query finds nothing, at any depth, and
unconditionally when `depth > 3`. -/
theorem trace_terminal_background (s : Scene) (r : Ray) (depth : ℕ)
    (h : s.intersect r = none ∨ 3 < depth) : s.trace r depth = s.background := by
  rcases h with hm | hd
  · exact s.trace_miss r hm
  · exact s.trace_depth_gt r hd

/-- Witness for C5 at depth 4 on the concrete scene. -/
theorem trace_terminal_background_witness :
    scene0.trace ray0 4 = scene0.background :=
  trace_terminal_background scene0 ray0 4 (Or.inr (by norm_num))

/-- Positivity of the length of a vector with nonzero length, and the unit
length of its normalization. -/
lemma Vec3.normalize_length_one {v : Vec3} (h : v.length ≠ 0) :
    v.normalize.length = 1 := by
  have hS : 0 ≤ v.x * v.x + v.y * v.y + v.z * v.z :=
    add_nonneg (add_nonneg (mul_self_nonneg _) (mul_self_nonneg _)) (mul_self_nonneg _)
  have hl : 0 ≤ v.length := Real.sqrt_nonneg _
  have hlpos : 0 < v.length := lt_of_le_of_ne hl (Ne.symm h)
  have hll : v.length * v.length = v.x * v.x + v.y * v.y + v.z * v.z :=
    Real.mul_self_sqrt hS
  have hSne : v.x * v.x + v.y * v.y + v.z * v.z ≠ 0 := by
    intro h0
    rw [Vec3.length, h0, Real.sqrt_zero] at h
    exact h rfl
  rw [Vec3.normalize, if_pos hlpos]
  show Real.sqrt
      ((v / v.length).x * (v / v.length).x + (v / v.length).y * (v / v.length).y +
        (v / v.length).z * (v / v.length).z) = 1
  have e1 : (v / v.length).x = v.x / v.length := rfl
  have e2 : (v / v.length).y = v.y / v.length := rfl
  have e3 : (v / v.length).z = v.z / v.length := rfl
  rw [e1, e2, e3]
  have hcomp :
      v.x / v.length * (v.x / v.length) + v.y / v.length * (v.y / v.length) +
        v.z / v.length * (v.z / v.length) =
      (v.x * v.x + v.y * v.y + v.z * v.z) / (v.length * v.length) := by
    ring
  rw [hcomp, hll, div_self hSne, Real.sqrt_one]

/-- CLAIM C8: the ray constructor stores the normalized supplied direction;
for a direction of nonzero length the stored direction is unit length, and
`normalize` of a zero-length vector is the zero vector. -/
theorem ray_direction_normalized (o d : Vec3) :
    (Ray.mk' o d).direction = d.normalize
    ∧ (d.length ≠ 0 → ((Ray.mk' o d).direction).length = 1)
    ∧ (∀ v : Vec3, v.length = 0 → v.normalize = ⟨0, 0, 0⟩) := by
  refine ⟨rfl, fun h => ?_, fun v hv => ?_⟩
  · exact Vec3.normalize_length_one h
  · rw [Vec3.normalize, hv]
    simp

/-- Witness for C8 on the direction `(0,0,2)`. -/
theorem ray_direction_normalized_witness :
    ((Ray.mk' ⟨0, 0, 0⟩ ⟨0, 0, 2⟩).direction).length = 1 := by
  refine (ray_direction_normalized ⟨0, 0, 0⟩ ⟨0, 0, 2⟩).2.1 ?_
  show Real.sqrt _ ≠ 0
  have : (0 : ℝ) * 0 + 0 * 0 + 2 * 2 = 4 := by norm_num
  rw [this]
  exact ne_of_gt (Real.sqrt_pos.mpr (by norm_num))

/-- CLAIM C6: `trace` is total and its recursion respects the depth bound:
running the fuel-indexed semantics with any fuel budget covering `4 - depth`
never exhausts the fuel and computes exactly the total function
`Scene.trace`, for every scene (in particular fully mirrored ones). -/
theorem trace_total_bounded_recursion (s : Scene) (fuel : ℕ) (r : Ray)
    (depth : ℕ) (h1 : 1 ≤ fuel) (h4 : 4 ≤ fuel + depth) :
    s.traceF fuel r depth = some (s.trace r depth) := by
  induction fuel generalizing r depth with
  | zero => exact absurd h1 (by norm_num)
  | succ fuel ih =>
    by_cases hd : 3 < depth
    · rw [s.trace_depth_gt r hd]
      simp [Scene.traceF, hd]
    · cases hi : s.intersect r with
      | none =>
        rw [s.trace_miss r hi]
        simp [Scene.traceF, hd, hi]
      | some pr =>
        obtain ⟨t, i⟩ := pr
        simp only [Scene.traceF, hd, if_false, hi]
        by_cases hc : 0 < (s.spheres.getD i default).material.reflectivity ∧ depth < 3
        · rw [if_pos hc]
          have hdep3 := hc.2
          have hih := ih
            (Ray.mk' (r.at t)
              ((((r.origin - r.at t).normalize) * (-1 : ℝ)).reflect
                ((s.spheres.getD i default).getNormal (r.at t))))
            (depth + 1) (by omega) (by omega)
          rw [hih, s.trace_hit_refl r hi hc.1 hc.2]
          rfl
        · rw [if_neg hc, s.trace_hit_norefl r hi hd hc]

/-- Witness for C6: fuel 4 suffices at depth 0 on the concrete scene. -/
theorem trace_total_bounded_recursion_witness :
    1 ≤ 4 ∧ 4 ≤ 4 + 0 ∧ scene0.traceF 4 ray0 0 = some (scene0.trace ray0 0) :=
  ⟨by norm_num, by norm_num,
    trace_total_bounded_recursion scene0 4 ray0 0 (by norm_num) (by norm_num)⟩

/-- Concrete evaluation: the witness ray hits the witness sphere at `t = 4`. -/
lemma sphere0_intersect : sphere0.intersect ray0 = some 4 := by
  simp only [Sphere.intersect, sphere0, ray0]
  norm_num [Vec3.dot, Vec3.lengthSquared, HSub.hSub, Sub.sub, Vec3.sub, Real.sqrt_one]

/-- Concrete evaluation: the closest-hit query on the witness scene. -/
lemma scene0_hit : scene0.intersect ray0 = some (4, 0) := by
  simp [Scene.intersect, scene0, intersectAux, intersectStep, sphere0_intersect]

/-- Concrete evaluation: reflectivity of the witness scene's sphere. -/
lemma scene0_reflectivity :
    (scene0.spheres.getD 0 default).material.reflectivity = 0.3 := rfl

/-- CLAIM C4: in `trace`, when the hit material has positive reflectivity and
the depth is below the bound, the recursive reflection color is combined with
the local color as the convex blend `local*(1-k) + reflected*k`; and for
`k ∈ [0,1]` and channelwise inputs in `[0,1]` every blended channel stays in
`[0,1]`. -/
theorem reflection_convex_blend :
    (∀ (s : Scene) (r : Ray) (t : ℝ) (i : ℕ) (depth : ℕ),
      s.intersect r = some (t, i) →
      0 < (s.spheres.getD i default).material.reflectivity →
      depth < 3 →
      s.trace r depth =
        blend (s.localColor r t i)
          (s.trace
            (Ray.mk' (r.at t)
              ((((r.origin - r.at t).normalize) * (-1 : ℝ)).reflect
                ((s.spheres.getD i default).getNormal (r.at t))))
            (depth + 1))
          (s.spheres.getD i default).material.reflectivity)
    ∧ (∀ (k : ℝ) (a b : Color),
        0 ≤ k → k ≤ 1 →
        0 ≤ a.x ∧ a.x ≤ 1 → 0 ≤ a.y ∧ a.y ≤ 1 → 0 ≤ a.z ∧ a.z ≤ 1 →
        0 ≤ b.x ∧ b.x ≤ 1 → 0 ≤ b.y ∧ b.y ≤ 1 → 0 ≤ b.z ∧ b.z ≤ 1 →
        (0 ≤ (blend a b k).x ∧ (blend a b k).x ≤ 1) ∧
        (0 ≤ (blend a b k).y ∧ (blend a b k).y ≤ 1) ∧
        (0 ≤ (blend a b k).z ∧ (blend a b k).z ≤ 1)) := by
  constructor
  · intro s r t i depth hi hrefl hdep
    exact s.trace_hit_refl r hi hrefl hdep
  · intro k a b hk0 hk1 hax hay haz hbx hby hbz
    have ex : (blend a b k).x = a.x * (1 - k) + b.x * k := rfl
    have ey : (blend a b k).y = a.y * (1 - k) + b.y * k := rfl
    have ez : (blend a b k).z = a.z * (1 - k) + b.z * k := rfl
    rw [ex, ey, ez]
    refine ⟨⟨?_, ?_⟩, ⟨?_, ?_⟩, ⟨?_, ?_⟩⟩ <;> nlinarith [hax.1, hax.2, hay.1,
      hay.2, haz.1, haz.2, hbx.1, hbx.2, hby.1, hby.2, hbz.1, hbz.2]

/-- Witness for C4: the blend equation at the concrete hit, and the channel
bounds at concrete colors. -/
theorem reflection_convex_blend_witness :
    (scene0.trace ray0 0 =
      blend (scene0.localColor ray0 4 0)
        (scene0.trace
          (Ray.mk' (ray0.at 4)
            ((((ray0.origin - ray0.at 4).normalize) * (-1 : ℝ)).reflect
              ((scene0.spheres.getD 0 default).getNormal (ray0.at 4))))
          1)
        (scene0.spheres.getD 0 default).material.reflectivity)
    ∧ (0 ≤ (blend ⟨1, 0, 0.5⟩ ⟨0.25, 1, 0.75⟩ 0.3).x ∧
        (blend ⟨1, 0, 0.5⟩ ⟨0.25, 1, 0.75⟩ 0.3).x ≤ 1) := by
  constructor
  · exact reflection_convex_blend.1 scene0 ray0 4 0 0 scene0_hit
      (by rw [scene0_reflectivity]; norm_num) (by norm_num)
  · exact (reflection_convex_blend.2 0.3 ⟨1, 0, 0.5⟩ ⟨0.25, 1, 0.75⟩
      (by norm_num) (by norm_num) (by norm_num) (by norm_num) (by norm_num)
      (by norm_num) (by norm_num) (by norm_num)).1

/-- Roots of a monic half-b quadratic with nonnegative discriminant. -/
lemma quad_roots {b c t : ℝ} (hd : 0 ≤ b * b - c) :
    t * t + 2 * b * t + c = 0 ↔
      t = -b - Real.sqrt (b * b - c) ∨ t = -b + Real.sqrt (b * b - c) := by
  have hs : Real.sqrt (b * b - c) * Real.sqrt (b * b - c) = b * b - c :=
    Real.mul_self_sqrt hd
  constructor
  · intro h
    have hfac :
        (t + b - Real.sqrt (b * b - c)) * (t + b + Real.sqrt (b * b - c)) = 0 := by
      linear_combination h - hs
    rcases mul_eq_zero.mp hfac with h1 | h2
    · right; linarith
    · left; linarith
  · rintro (h | h) <;> subst h <;> linear_combination hs

/-- A half-b quadratic with negative discriminant has no real root. -/
lemma quad_no_root {b c t : ℝ} (hd : b * b - c < 0) :
    t * t + 2 * b * t + c ≠ 0 := by
  nlinarith [sq_nonneg (t + b)]

/-- A returned intersection parameter is strictly greater than ε = 0.001 and
is a root of the computed half-b quadratic. -/
lemma Sphere.intersect_mem {sph : Sphere} {r : Ray} {t : ℝ}
    (h : sph.intersect r = some t) :
    0.001 < t ∧
      t * t + 2 * ((r.origin - sph.center).dot r.direction) * t
        + ((r.origin - sph.center).lengthSquared - sph.radius * sph.radius) = 0 := by
  simp only [Sphere.intersect] at h
  set b := (r.origin - sph.center).dot r.direction with hb
  set c := (r.origin - sph.center).lengthSquared - sph.radius * sph.radius with hc
  split_ifs at h with h1 h2 h3
  · injection h with h
    subst h
    exact ⟨h2, (quad_roots (not_lt.mp h1)).mpr (Or.inl rfl)⟩
  · injection h with h
    subst h
    exact ⟨h3, (quad_roots (not_lt.mp h1)).mpr (Or.inr rfl)⟩

/-- A returned intersection parameter is the least root exceeding ε. -/
lemma Sphere.intersect_least {sph : Sphere} {r : Ray} {t : ℝ}
    (h : sph.intersect r = some t) :
    ∀ u, 0.001 < u →
      u * u + 2 * ((r.origin - sph.center).dot r.direction) * u
        + ((r.origin - sph.center).lengthSquared - sph.radius * sph.radius) = 0 →
      t ≤ u := by
  simp only [Sphere.intersect] at h
  set b := (r.origin - sph.center).dot r.direction with hb
  set c := (r.origin - sph.center).lengthSquared - sph.radius * sph.radius with hc
  split_ifs at h with h1 h2 h3
  · injection h with h
    subst h
    intro u hu hroot
    rcases (quad_roots (not_lt.mp h1)).mp hroot with h | h <;> subst h
    · exact le_refl _
    · linarith [Real.sqrt_nonneg (b * b - c)]
  · injection h with h
    subst h
    intro u hu hroot
    rcases (quad_roots (not_lt.mp h1)).mp hroot with h | h <;> subst h
    · exact absurd hu h2
    · exact le_refl _

/-- The intersection routine reports a hit exactly when the computed half-b
quadratic has a real root exceeding ε. -/
lemma Sphere.intersect_isSome_iff {sph : Sphere} {r : Ray} :
    (sph.intersect r).isSome ↔
      ∃ u, 0.001 < u ∧
        u * u + 2 * ((r.origin - sph.center).dot r.direction) * u
          + ((r.origin - sph.center).lengthSquared - sph.radius * sph.radius) = 0 := by
  constructor
  · intro h
    obtain ⟨t, ht⟩ := Option.isSome_iff_exists.mp h
    exact ⟨t, Sphere.intersect_mem ht⟩
  · rintro ⟨u, hu, hroot⟩
    simp only [Sphere.intersect]
    set b := (r.origin - sph.center).dot r.direction with hb
    set c := (r.origin - sph.center).lengthSquared - sph.radius * sph.radius with hc
    by_cases h1 : b * b - c < 0
    · exact absurd hroot (quad_no_root h1)
    · rcases (quad_roots (not_lt.mp h1)).mp hroot with h | h
      · rw [if_neg h1, if_pos (h ▸ hu)]
        rfl
      · by_cases h2 : 0.001 < -b - Real.sqrt (b * b - c)
        · rw [if_neg h1, if_pos h2]
          rfl
        · rw [if_neg h1, if_neg h2, if_pos (h ▸ hu)]
          rfl

/-- When the ray origin is strictly inside the sphere, the returned parameter
is positive and is the larger (exit) root. -/
lemma Sphere.intersect_inside {sph : Sphere} {r : Ray}
    (hin : (r.origin - sph.center).lengthSquared - sph.radius * sph.radius < 0)
    {t : ℝ} (h : sph.intersect r = some t) :
    0 < t ∧
      t = -((r.origin - sph.center).dot r.direction)
        + Real.sqrt (((r.origin - sph.center).dot r.direction) *
            ((r.origin - sph.center).dot r.direction)
          - ((r.origin - sph.center).lengthSquared - sph.radius * sph.radius)) := by
  simp only [Sphere.intersect] at h
  set b := (r.origin - sph.center).dot r.direction with hb
  set c := (r.origin - sph.center).lengthSquared - sph.radius * sph.radius with hc
  have hd : 0 ≤ b * b - c := by nlinarith [sq_nonneg b]
  have hs : Real.sqrt (b * b - c) * Real.sqrt (b * b - c) = b * b - c :=
    Real.mul_self_sqrt hd
  have hs0 : 0 ≤ Real.sqrt (b * b - c) := Real.sqrt_nonneg _
  have ht1neg : -b - Real.sqrt (b * b - c) < 0 := by nlinarith
  have ht2pos : 0 < -b + Real.sqrt (b * b - c) := by nlinarith
  split_ifs at h with h1 h2 h3
  · exact absurd h2 (by norm_num; linarith)
  · injection h with h
    subst h
    exact ⟨ht2pos, rfl⟩

/-- Under a unit direction, the specification's ray–sphere quadratic
coincides with the computed monic half-b quadratic. -/
lemma sphereQuadratic_unit {sph : Sphere} {r : Ray}
    (hu : r.direction.dot r.direction = 1) (t : ℝ) :
    sphereQuadratic sph r t =
      t * t + 2 * ((r.origin - sph.center).dot r.direction) * t
        + ((r.origin - sph.center).lengthSquared - sph.radius * sph.radius) := by
  have hoc : (r.origin - sph.center).dot (r.origin - sph.center)
      = (r.origin - sph.center).lengthSquared := rfl
  simp only [sphereQuadratic, hu, hoc]
  ring

/-- CLAIM C2: for a unit-direction ray, the intersection routine reports a
hit exactly when the ray–sphere quadratic has a real root greater than
ε = 0.001; the returned parameter is such a root and is the least root
exceeding ε (smaller root preferred, larger used when the smaller fails the
ε test); and when the ray origin is inside the sphere the returned parameter
is positive and equals the larger (exit) root, never a negative entry
root. -/
theorem sphere_intersect_root_selection (sph : Sphere) (r : Ray)
    (hu : r.direction.dot r.direction = 1) :
    ((sph.intersect r).isSome ↔ ∃ t, 0.001 < t ∧ sphereQuadratic sph r t = 0)
    ∧ (∀ t, sph.intersect r = some t →
        0.001 < t ∧ sphereQuadratic sph r t = 0 ∧
          ∀ u, 0.001 < u → sphereQuadratic sph r u = 0 → t ≤ u)
    ∧ ((r.origin - sph.center).lengthSquared - sph.radius * sph.radius < 0 →
        ∀ t, sph.intersect r = some t →
          0 < t ∧
            t = -((r.origin - sph.center).dot r.direction)
              + Real.sqrt
                  (((r.origin - sph.center).dot r.direction) *
                      ((r.origin - sph.center).dot r.direction)
                    - ((r.origin - sph.center).lengthSquared
                        - sph.radius * sph.radius))) := by
  refine ⟨?_, ?_, ?_⟩
  · simp only [sphereQuadratic_unit hu]
    exact Sphere.intersect_isSome_iff
  · intro t ht
    obtain ⟨h1, h2⟩ := Sphere.intersect_mem ht
    refine ⟨h1, ?_, ?_⟩
    · rw [sphereQuadratic_unit hu]
      exact h2
    · intro u hu' hru
      rw [sphereQuadratic_unit hu] at hru
      exact Sphere.intersect_least ht u hu' hru
  · intro hin t ht
    exact Sphere.intersect_inside hin ht

/-- Concrete evaluation: the witness ray's direction is unit length. -/
lemma ray0_unit : ray0.direction.dot ray0.direction = 1 := by
  norm_num [ray0, Vec3.dot]

/-- Witness for C2 at the concrete hit `t = 4`. -/
theorem sphere_intersect_root_selection_witness :
    (0.001 : ℝ) < 4 ∧ sphereQuadratic sphere0 ray0 4 = 0 :=
  ⟨((sphere_intersect_root_selection sphere0 ray0 ray0_unit).2.1 4
      sphere0_intersect).1,
    ((sphere_intersect_root_selection sphere0 ray0 ray0_unit).2.1 4
      sphere0_intersect).2.1⟩

/-- CLAIM C3: for a unit-direction ray, the baseline general-quadratic
intersection and the optimized half-b intersection agree exactly, both on
hit versus no-hit and on the returned parameter. -/
theorem intersect_forms_agree (sph : Sphere) (r : Ray)
    (hu : r.direction.dot r.direction = 1) :
    sph.intersectBaseline r = sph.intersect r := by
  have hoc : (r.origin - sph.center).dot (r.origin - sph.center)
      = (r.origin - sph.center).lengthSquared := rfl
  simp only [Sphere.intersect, Sphere.intersectBaseline, hu, hoc]
  set b := (r.origin - sph.center).dot r.direction with hb
  set c := (r.origin - sph.center).lengthSquared - sph.radius * sph.radius with hc
  have hd4 : 2 * b * (2 * b) - 4 * 1 * c = 4 * (b * b - c) := by ring
  rw [hd4]
  by_cases hneg : b * b - c < 0
  · rw [if_pos (by linarith : 4 * (b * b - c) < 0), if_pos hneg]
  · have hge := not_lt.mp hneg
    rw [if_neg (by linarith : ¬ 4 * (b * b - c) < 0), if_neg hneg]
    have hs : Real.sqrt (4 * (b * b - c)) = 2 * Real.sqrt (b * b - c) := by
      rw [show (4 : ℝ) * (b * b - c) = 2 ^ 2 * (b * b - c) by ring,
        Real.sqrt_mul (by norm_num : (0 : ℝ) ≤ 2 ^ 2),
        Real.sqrt_sq (by norm_num : (0 : ℝ) ≤ 2)]
    rw [hs]
    have e1 : (-(2 * b) - 2 * Real.sqrt (b * b - c)) / (2 * 1)
        = -b - Real.sqrt (b * b - c) := by ring
    have e2 : (-(2 * b) + 2 * Real.sqrt (b * b - c)) / (2 * 1)
        = -b + Real.sqrt (b * b - c) := by ring
    rw [e1, e2]

/-- Witness for C3 on the concrete unit-direction ray and sphere. -/
theorem intersect_forms_agree_witness :
    sphere0.intersectBaseline ray0 = sphere0.intersect ray0 :=
  intersect_forms_agree sphere0 ray0 ray0_unit

/-- Step behaviour when the sphere misses: the accumulator is kept. -/
lemma intersectStep_miss {r : Ray} {sph : Sphere} (i : ℕ) (acc : Option (ℝ × ℕ))
    (hsi : sph.intersect r = none) : intersectStep r sph i acc = acc := by
  unfold intersectStep
  rw [hsi]

/-- Step behaviour on a hit with empty accumulator: the hit is recorded. -/
lemma intersectStep_hit_none {r : Ray} {sph : Sphere} {t' : ℝ} (i : ℕ)
    (hsi : sph.intersect r = some t') :
    intersectStep r sph i none = some (t', i) := by
  unfold intersectStep
  rw [hsi]

/-- Step behaviour on a strictly closer hit: the accumulator is replaced. -/
lemma intersectStep_hit_lt {r : Ray} {sph : Sphere} {t' ct : ℝ} {ci : ℕ} (i : ℕ)
    (hsi : sph.intersect r = some t') (hlt : t' < ct) :
    intersectStep r sph i (some (ct, ci)) = some (t', i) := by
  unfold intersectStep
  rw [hsi]
  exact if_pos hlt

/-- Step behaviour on a hit that is not strictly closer: the accumulator is
kept (exact ties keep the earlier index). -/
lemma intersectStep_hit_ge {r : Ray} {sph : Sphere} {t' ct : ℝ} {ci : ℕ} (i : ℕ)
    (hsi : sph.intersect r = some t') (hlt : ¬ t' < ct) :
    intersectStep r sph i (some (ct, ci)) = some (ct, ci) := by
  unfold intersectStep
  rw [hsi]
  exact if_neg hlt

/-- The closest-hit scan returns nothing exactly when the accumulator was
empty and every remaining sphere misses. -/
lemma intersectAux_none_iff (r : Ray) (l : List Sphere) :
    ∀ (i : ℕ) (acc : Option (ℝ × ℕ)),
      intersectAux r l i acc = none ↔
        acc = none ∧ ∀ sph ∈ l, sph.intersect r = none := by
  induction l with
  | nil =>
    intro i acc
    simp [intersectAux]
  | cons sph rest ih =>
    intro i acc
    simp only [intersectAux]
    rw [ih]
    have hstep : intersectStep r sph i acc = none ↔
        acc = none ∧ sph.intersect r = none := by
      constructor
      · intro h0
        rcases hsi : sph.intersect r with _ | t'
        · rw [intersectStep_miss i acc hsi] at h0
          exact ⟨h0, rfl⟩
        · rcases ha : acc with _ | ⟨ct0, ci0⟩
          · rw [ha, intersectStep_hit_none i hsi] at h0
            exact Option.noConfusion h0
          · by_cases hlt : t' < ct0
            · rw [ha, intersectStep_hit_lt i hsi hlt] at h0
              exact Option.noConfusion h0
            · rw [ha, intersectStep_hit_ge i hsi hlt] at h0
              exact Option.noConfusion h0
      · rintro ⟨ha, hsi⟩
        rw [intersectStep_miss i acc hsi]
        exact ha
    rw [hstep]
    constructor
    · rintro ⟨⟨ha, hs⟩, hrest⟩
      refine ⟨ha, fun sph' hmem => ?_⟩
      rcases List.mem_cons.mp hmem with h | h
      · rw [h]; exact hs
      · exact hrest sph' h
    · rintro ⟨ha, hall⟩
      exact ⟨⟨ha, hall sph (List.mem_cons_self sph rest)⟩,
        fun sph' hmem => hall sph' (List.mem_cons.mpr (Or.inr hmem))⟩

/-- Invariant of the closest-hit scan when it returns a hit: the result
comes from the accumulator or from one of the scanned spheres, it improves
strictly on the accumulator unless it is the accumulator itself, it is a
lower bound on every scanned sphere's returned parameter, and exact ties are
resolved toward the accumulator and the earliest scanned index. -/
lemma intersectAux_some_spec (r : Ray) (l : List Sphere) :
    ∀ (i : ℕ) (acc : Option (ℝ × ℕ)),
      (∀ ct ci, acc = some (ct, ci) → ci < i) →
      ∀ t k, intersectAux r l i acc = some (t, k) →
        (acc = some (t, k) ∨
          (i ≤ k ∧ k < i + l.length ∧ (l.getD (k - i) default).intersect r = some t))
        ∧ (∀ ct ci, acc = some (ct, ci) → t < ct ∨ (t = ct ∧ k = ci))
        ∧ (∀ j, j < l.length → ∀ u, (l.getD j default).intersect r = some u → t ≤ u)
        ∧ (∀ j, j < l.length → (l.getD j default).intersect r = some t → k ≤ i + j) := by
  induction l with
  | nil =>
    intro i acc hacc t k h
    simp only [intersectAux] at h
    refine ⟨Or.inl h, ?_, ?_, ?_⟩
    · intro ct ci hacc0
      rw [h] at hacc0
      simp only [Option.some.injEq, Prod.mk.injEq] at hacc0
      exact Or.inr ⟨hacc0.1, hacc0.2⟩
    · intro j hj
      simp at hj
    · intro j hj
      simp at hj
  | cons sph rest ih =>
    intro i acc hacc t k h
    simp only [intersectAux] at h
    have hacc' : ∀ ct ci, intersectStep r sph i acc = some (ct, ci) → ci < i + 1 := by
      intro ct ci hstep
      rcases hsi : sph.intersect r with _ | t'
      · rw [intersectStep_miss i acc hsi] at hstep
        have := hacc ct ci hstep
        omega
      · rcases ha : acc with _ | ⟨ct0, ci0⟩
        · rw [ha, intersectStep_hit_none i hsi] at hstep
          simp only [Option.some.injEq, Prod.mk.injEq] at hstep
          omega
        · by_cases hlt : t' < ct0
          · rw [ha, intersectStep_hit_lt i hsi hlt] at hstep
            simp only [Option.some.injEq, Prod.mk.injEq] at hstep
            omega
          · rw [ha, intersectStep_hit_ge i hsi hlt] at hstep
            simp only [Option.some.injEq, Prod.mk.injEq] at hstep
            have := hacc ct0 ci0 ha
            omega
    obtain ⟨P1, P2, P3, P4⟩ := ih (i + 1) (intersectStep r sph i acc) hacc' t k h
    have hQ2 : ∀ ct ci, acc = some (ct, ci) → t < ct ∨ (t = ct ∧ k = ci) := by
      intro ct ci ha
      rcases hsi : sph.intersect r with _ | t'
      · exact P2 ct ci (by rw [intersectStep_miss i acc hsi]; exact ha)
      · by_cases hlt : t' < ct
        · rcases P2 t' i (by rw [ha, intersectStep_hit_lt i hsi hlt]) with h1 | h1
          · left; linarith
          · left; rw [h1.1]; exact hlt
        · exact P2 ct ci (by rw [ha, intersectStep_hit_ge i hsi hlt])
    have hQ3 : ∀ j, j < (sph :: rest).length →
        ∀ u, ((sph :: rest).getD j default).intersect r = some u → t ≤ u := by
      intro j hj u hju
      cases j with
      | zero =>
        rw [List.getD_cons_zero] at hju
        rcases ha : acc with _ | ⟨ct0, ci0⟩
        · rcases P2 u i (by rw [ha, intersectStep_hit_none i hju]) with h1 | h1
          · linarith
          · exact le_of_eq h1.1
        · by_cases hlt : u < ct0
          · rcases P2 u i (by rw [ha, intersectStep_hit_lt i hju hlt]) with h1 | h1
            · linarith
            · exact le_of_eq h1.1
          · rcases P2 ct0 ci0 (by rw [ha, intersectStep_hit_ge i hju hlt]) with h1 | h1
            · linarith [not_lt.mp hlt]
            · have h2 := h1.1
              linarith [not_lt.mp hlt]
      | succ j' =>
        rw [List.getD_cons_succ] at hju
        refine P3 j' ?_ u hju
        rw [List.length_cons] at hj
        omega
    have hQ4 : ∀ j, j < (sph :: rest).length →
        ((sph :: rest).getD j default).intersect r = some t → k ≤ i + j := by
      intro j hj hjt
      cases j with
      | zero =>
        rw [List.getD_cons_zero] at hjt
        rcases ha : acc with _ | ⟨ct0, ci0⟩
        · rcases P2 t i (by rw [ha, intersectStep_hit_none i hjt]) with h1 | h1
          · exact absurd h1 (lt_irrefl t)
          · have := h1.2
            omega
        · by_cases hlt : t < ct0
          · rcases P2 t i (by rw [ha, intersectStep_hit_lt i hjt hlt]) with h1 | h1
            · exact absurd h1 (lt_irrefl t)
            · have := h1.2
              omega
          · rcases P2 ct0 ci0 (by rw [ha, intersectStep_hit_ge i hjt hlt]) with h1 | h1
            · exact absurd h1 hlt
            · have hci := hacc ct0 ci0 ha
              have := h1.2
              omega
      | succ j' =>
        rw [List.getD_cons_succ] at hjt
        have hb : j' < rest.length := by
          rw [List.length_cons] at hj
          omega
        have := P4 j' hb hjt
        omega
    have hQ1 : acc = some (t, k) ∨
        (i ≤ k ∧ k < i + (sph :: rest).length ∧
          ((sph :: rest).getD (k - i) default).intersect r = some t) := by
      rcases P1 with hA | ⟨hk1, hk2, hk3⟩
      · rcases hsi : sph.intersect r with _ | t'
        · left
          rw [intersectStep_miss i acc hsi] at hA
          exact hA
        · rcases ha : acc with _ | ⟨ct0, ci0⟩
          · rw [ha, intersectStep_hit_none i hsi] at hA
            simp only [Option.some.injEq, Prod.mk.injEq] at hA
            right
            refine ⟨by omega, by rw [List.length_cons]; omega, ?_⟩
            have hki : k - i = 0 := by omega
            rw [hki, List.getD_cons_zero, hsi, hA.1]
          · by_cases hlt : t' < ct0
            · rw [ha, intersectStep_hit_lt i hsi hlt] at hA
              simp only [Option.some.injEq, Prod.mk.injEq] at hA
              right
              refine ⟨by omega, by rw [List.length_cons]; omega, ?_⟩
              have hki : k - i = 0 := by omega
              rw [hki, List.getD_cons_zero, hsi, hA.1]
            · rw [ha, intersectStep_hit_ge i hsi hlt] at hA
              left
              exact hA
      · right
        refine ⟨by omega, by rw [List.length_cons]; omega, ?_⟩
        have hki : k - i = (k - (i + 1)) + 1 := by omega
        rw [hki, List.getD_cons_succ]
        exact hk3
    exact ⟨hQ1, hQ2, hQ3, hQ4⟩

/-- CLAIM C7: when the closest-hit query returns a hit, the index is a valid
position in the sphere sequence, the parameter is that sphere's returned
intersection parameter, it is the minimum over all spheres' returned
parameters (each of which exceeds ε = 0.001), and exact ties go to the
earliest-inserted sphere; when it returns nothing (the `-1` sentinel), no
sphere has a valid intersection. -/
theorem closest_hit_spec (s : Scene) (r : Ray) :
    (∀ t i, s.intersect r = some (t, i) →
      i < s.spheres.length
      ∧ (s.spheres.getD i default).intersect r = some t
      ∧ 0.001 < t
      ∧ (∀ j, j < s.spheres.length →
          ∀ u, (s.spheres.getD j default).intersect r = some u → t ≤ u)
      ∧ (∀ j, j < s.spheres.length →
          (s.spheres.getD j default).intersect r = some t → i ≤ j))
    ∧ (s.intersect r = none → ∀ sph ∈ s.spheres, sph.intersect r = none)
    ∧ (∀ sph ∈ s.spheres, ∀ u, sph.intersect r = some u → 0.001 < u) := by
  refine ⟨?_, ?_, ?_⟩
  · intro t i h
    obtain ⟨P1, _, P3, P4⟩ :=
      intersectAux_some_spec r s.spheres 0 none (by simp) t i h
    rcases P1 with hA | ⟨_, h1, h2⟩
    · exact Option.noConfusion hA
    · rw [Nat.sub_zero] at h2
      refine ⟨by omega, h2, (Sphere.intersect_mem h2).1, ?_, ?_⟩
      · intro j hj u hju
        exact P3 j hj u hju
      · intro j hj hjt
        have := P4 j hj hjt
        omega
  · intro h sph hmem
    exact ((intersectAux_none_iff r s.spheres 0 none).mp h).2 sph hmem
  · intro sph _ u hu
    exact (Sphere.intersect_mem hu).1

/-- Witness for C7 at the concrete hit: index 0 is valid and holds the
returned parameter 4. -/
theorem closest_hit_spec_witness :
    0 < scene0.spheres.length
    ∧ (scene0.spheres.getD 0 default).intersect ray0 = some 4 :=
  ⟨((closest_hit_spec scene0 ray0).1 4 0 scene0_hit).1,
    ((closest_hit_spec scene0 ray0).1 4 0 scene0_hit).2.1⟩

/-- The any-hit query is true exactly when some sphere's returned parameter
lies below the distance bound (and above ε). -/
lemma intersectShadow_iff (s : Scene) (r : Ray) (d : ℝ) :
    s.intersectShadow r d = true ↔
      ∃ sph ∈ s.spheres, ∃ u, sph.intersect r = some u ∧ 0.001 < u ∧ u < d := by
  rw [Scene.intersectShadow, List.any_eq_true]
  constructor
  · rintro ⟨sph, hmem, hp⟩
    refine ⟨sph, hmem, ?_⟩
    rcases hsi : sph.intersect r with _ | u
    · simp only [hsi] at hp
      exact Bool.noConfusion hp
    · simp only [hsi, decide_eq_true_eq] at hp
      exact ⟨u, rfl, hp.1, hp.2⟩
  · rintro ⟨sph, hmem, u, hsi, h1, h2⟩
    refine ⟨sph, hmem, ?_⟩
    simp only [hsi, decide_eq_true_eq]
    exact ⟨h1, h2⟩

/-- For a unit-direction ray, a sphere has a returned parameter inside
`(ε, d)` exactly when the ray–sphere quadratic has a root inside `(ε, d)`. -/
lemma sphere_shadow_iff {sph : Sphere} {r : Ray} {d : ℝ}
    (hu : r.direction.dot r.direction = 1) :
    (∃ u, sph.intersect r = some u ∧ 0.001 < u ∧ u < d) ↔
      (∃ t, 0.001 < t ∧ t < d ∧ sphereQuadratic sph r t = 0) := by
  constructor
  · rintro ⟨u, hsome, h1, h2⟩
    obtain ⟨_, hroot⟩ := Sphere.intersect_mem hsome
    refine ⟨u, h1, h2, ?_⟩
    rw [sphereQuadratic_unit hu]
    exact hroot
  · rintro ⟨t, h1, h2, hroot⟩
    rw [sphereQuadratic_unit hu] at hroot
    have hsome : (sph.intersect r).isSome :=
      Sphere.intersect_isSome_iff.mpr ⟨t, h1, hroot⟩
    obtain ⟨u, hu'⟩ := Option.isSome_iff_exists.mp hsome
    have hle := Sphere.intersect_least hu' t h1 hroot
    exact ⟨u, hu', (Sphere.intersect_mem hu').1, lt_of_le_of_lt hle h2⟩

/-- The closest-hit based shadow check is true exactly when the globally
nearest hit parameter lies inside `(ε, d)`. -/
lemma shadowViaClosestHit_iff (s : Scene) (r : Ray) (d : ℝ) :
    shadowViaClosestHit s r d = true ↔
      ∃ t k, s.intersect r = some (t, k) ∧ 0.001 < t ∧ t < d := by
  rcases hi : s.intersect r with _ | ⟨t, k⟩
  · simp [shadowViaClosestHit, hi]
  · simp only [shadowViaClosestHit, hi, decide_eq_true_eq]
    constructor
    · rintro ⟨h1, h2⟩
      exact ⟨t, k, rfl, h1, h2⟩
    · rintro ⟨t', k', he, h1, h2⟩
      simp only [Option.some.injEq, Prod.mk.injEq] at he
      rw [← he.1] at h1 h2
      exact ⟨h1, h2⟩

/-- The any-hit shadow query agrees with the spec's closest-hit based check
restricted to `(ε, light_distance)`, on every input. -/
lemma shadow_equiv (s : Scene) (r : Ray) (d : ℝ) :
    s.intersectShadow r d = shadowViaClosestHit s r d := by
  rw [Bool.eq_iff_iff, intersectShadow_iff, shadowViaClosestHit_iff]
  constructor
  · rintro ⟨sph, hmem, u, hsome, h1, h2⟩
    have hnone : s.intersect r ≠ none := by
      intro h0
      have hall := ((intersectAux_none_iff r s.spheres 0 none).mp h0).2 sph hmem
      rw [hall] at hsome
      exact Option.noConfusion hsome
    rcases hi : s.intersect r with _ | ⟨t, k⟩
    · exact absurd hi hnone
    · obtain ⟨P1, _, P3, _⟩ :=
        intersectAux_some_spec r s.spheres 0 none (by simp) t k hi
      obtain ⟨j, hj, hje⟩ := List.mem_iff_getElem.mp hmem
      have hgd : s.spheres.getD j default = sph := by
        rw [List.getD_eq_getElem _ _ hj]
        exact hje
      have hle : t ≤ u := P3 j hj u (by rw [hgd]; exact hsome)
      have ht : 0.001 < t := by
        rcases P1 with hA | ⟨_, _, hgd'⟩
        · exact Option.noConfusion hA
        · exact (Sphere.intersect_mem hgd').1
      exact ⟨t, k, rfl, ht, lt_of_le_of_lt hle h2⟩
  · rintro ⟨t, k, hi, h1, h2⟩
    obtain ⟨P1, _, _, _⟩ :=
      intersectAux_some_spec r s.spheres 0 none (by simp) t k hi
    rcases P1 with hA | ⟨_, hk, hgd⟩
    · exact Option.noConfusion hA
    · rw [Nat.sub_zero] at hgd
      have hklen : k < s.spheres.length := by omega
      have hmem : s.spheres.getD k default ∈ s.spheres := by
        rw [List.getD_eq_getElem _ _ hklen]
        exact List.getElem_mem hklen
      exact ⟨_, hmem, t, hgd, h1, h2⟩

/-- CLAIM C1: the any-hit shadow query is true exactly when some sphere has
an intersection (a root of the ray–sphere quadratic) strictly between
ε = 0.001 and the light distance, and its verdict equals the closest-hit
query restricted to `(ε, d)`, on every input — only the search strategy
differs. -/
theorem shadow_query_semantics (s : Scene) (r : Ray) (d : ℝ)
    (hu : r.direction.dot r.direction = 1) :
    (s.intersectShadow r d = true ↔
      ∃ sph ∈ s.spheres, ∃ t, 0.001 < t ∧ t < d ∧ sphereQuadratic sph r t = 0)
    ∧ s.intersectShadow r d = shadowViaClosestHit s r d := by
  constructor
  · rw [intersectShadow_iff]
    constructor
    · rintro ⟨sph, hmem, hex⟩
      exact ⟨sph, hmem, (sphere_shadow_iff hu).mp hex⟩
    · rintro ⟨sph, hmem, hex⟩
      exact ⟨sph, hmem, (sphere_shadow_iff hu).mpr hex⟩
  · exact shadow_equiv s r d

/-- Witness for C1 on the concrete unit-direction ray, scene, and distance
bound 10. -/
theorem shadow_query_semantics_witness :
    (scene0.intersectShadow ray0 10 = true ↔
      ∃ sph ∈ scene0.spheres, ∃ t, 0.001 < t ∧ t < 10 ∧
        sphereQuadratic sph ray0 t = 0)
    ∧ scene0.intersectShadow ray0 10 = shadowViaClosestHit scene0 ray0 10 :=
  shadow_query_semantics scene0 ray0 10 ray0_unit

/-- Shifted disjoint bit fields combine by OR exactly as by addition. -/
lemma shiftLeft_lor_eq_add (a y n : ℕ) (hy : y < 2 ^ n) :
    (a <<< n) ||| y = a * 2 ^ n + y := by
  apply Nat.eq_of_testBit_eq
  intro i
  rw [Nat.testBit_lor, Nat.testBit_shiftLeft,
    show a * 2 ^ n + y = 2 ^ n * a + y by ring,
    Nat.testBit_mul_pow_two_add a hy i]
  by_cases hin : i < n
  · simp [hin, show ¬ n ≤ i by omega]
  · have hy' : y < 2 ^ i :=
      lt_of_lt_of_le hy (Nat.pow_le_pow_right (by norm_num) (by omega))
    simp [hin, show n ≤ i by omega, Nat.testBit_lt_two_pow hy']

/-- Channels after clamping lie in the unit interval. -/
lemma clamp_mem (c : Color) :
    (0 ≤ (clamp c).x ∧ (clamp c).x ≤ 1) ∧ (0 ≤ (clamp c).y ∧ (clamp c).y ≤ 1) ∧
      (0 ≤ (clamp c).z ∧ (clamp c).z ≤ 1) := by
  refine ⟨⟨?_, ?_⟩, ⟨?_, ?_⟩, ⟨?_, ?_⟩⟩ <;>
    first
      | exact le_min zero_le_one (le_max_left 0 _)
      | exact min_le_left _ _

/-- The byte conversion of a channel bounded by 1 fits in eight bits. -/
lemma toByte_lt_256 {xv : ℝ} (h1 : xv ≤ 1) : toByte xv < 256 := by
  have hle : (255.99 : ℝ) * xv ≤ 255.99 := by nlinarith
  have h2 : Int.floor ((255.99 : ℝ) * xv) ≤ Int.floor (255.99 : ℝ) :=
    Int.floor_le_floor hle
  have h3 : Int.floor (255.99 : ℝ) = 255 := by norm_num [Int.floor_eq_iff]
  rw [toByte]
  have h4 : Int.floor ((255.99 : ℝ) * xv) ≤ (255 : ℤ) := by omega
  have h5 : (Int.floor ((255.99 : ℝ) * xv)).toNat ≤ 255 :=
    Int.toNat_le.mpr (by exact_mod_cast h4)
  omega

/-- Channel bounds of the traced and clamped pixel color. -/
lemma pixelColor_le_one (s : Scene) (cam : Camera) (w h i j : ℕ) :
    (pixelColor s cam w h i j).x ≤ 1 ∧ (pixelColor s cam w h i j).y ≤ 1 ∧
      (pixelColor s cam w h i j).z ≤ 1 :=
  ⟨(clamp_mem _).1.2, (clamp_mem _).2.1.2, (clamp_mem _).2.2.2⟩

/-- Arithmetic form of the packed ARGB sample: the OR of the shifted byte
lanes is the corresponding weighted sum. -/
lemma pixelValue_eq (s : Scene) (cam : Camera) (w h i j : ℕ) :
    pixelValue s cam w h i j =
      0xFF * 2 ^ 24 + toByte (pixelColor s cam w h i j).x * 2 ^ 16
        + toByte (pixelColor s cam w h i j).y * 2 ^ 8
        + toByte (pixelColor s cam w h i j).z := by
  obtain ⟨hx, hy, hz⟩ := pixelColor_le_one s cam w h i j
  have bx := toByte_lt_256 hx
  have bby := toByte_lt_256 hy
  have bz := toByte_lt_256 hz
  rw [pixelValue, Nat.lor_assoc, Nat.lor_assoc]
  rw [shiftLeft_lor_eq_add (toByte (pixelColor s cam w h i j).y) _ 8
      (by omega : toByte (pixelColor s cam w h i j).z < 2 ^ 8)]
  rw [shiftLeft_lor_eq_add (toByte (pixelColor s cam w h i j).x) _ 16
      (by norm_num at bby bz ⊢; omega)]
  rw [shiftLeft_lor_eq_add 0xFF _ 24
      (by norm_num at bx bby bz ⊢; omega)]
  ring

/-- Division and remainder of a row-major index. -/
lemma rowIdx_div {w i : ℕ} (j : ℕ) (hi : i < w) : (j * w + i) / w = j := by
  rw [Nat.mul_comm j w, Nat.mul_add_div (by omega) j i, Nat.div_eq_of_lt hi,
    Nat.add_zero]

/-- Remainder of a row-major index. -/
lemma rowIdx_mod {w i : ℕ} (j : ℕ) (hi : i < w) : (j * w + i) % w = i := by
  rw [Nat.mul_comm j w, Nat.mul_add_mod, Nat.mod_eq_of_lt hi]

/-- Pointwise description of one row's writes: cell `n` holds the packed
sample of column `n - j*w` when `n` addresses row `j`, and is untouched
otherwise. -/
lemma foldl_update_row_apply (s : Scene) (cam : Camera) (w h j : ℕ)
    (l : List ℕ) (hl : ∀ i ∈ l, i < w) :
    ∀ (buf : ℕ → ℕ) (n : ℕ),
      (l.foldl
        (fun b i => Function.update b (j * w + i) (pixelValue s cam w h i j))
        buf) n =
      if ∃ i ∈ l, n = j * w + i then pixelValue s cam w h (n - j * w) j
      else buf n := by
  induction l with
  | nil =>
    intro buf n
    simp
  | cons i0 rest ih =>
    intro buf n
    have hl' : ∀ i ∈ rest, i < w := fun i hi => hl i (List.mem_cons_of_mem i0 hi)
    rw [List.foldl_cons, ih hl']
    by_cases hex : ∃ i ∈ rest, n = j * w + i
    · rw [if_pos hex, if_pos ?_]
      obtain ⟨i, hi1, hi2⟩ := hex
      exact ⟨i, List.mem_cons_of_mem i0 hi1, hi2⟩
    · rw [if_neg hex, Function.update_apply]
      by_cases he : n = j * w + i0
      · rw [if_pos he,
          if_pos (⟨i0, List.mem_cons_self i0 rest, he⟩ :
            ∃ i ∈ i0 :: rest, n = j * w + i)]
        have : n - j * w = i0 := by omega
        rw [this]
      · rw [if_neg he, if_neg ?_]
        rintro ⟨i, hmem, hni⟩
        rcases List.mem_cons.mp hmem with h0 | h0
        · exact he (h0 ▸ hni)
        · exact hex ⟨i, h0, hni⟩

/-- Pointwise description of `renderRow`: it writes exactly the cells of
row `j`. -/
lemma renderRow_apply (s : Scene) (cam : Camera) (w h : ℕ) (hw : 0 < w)
    (buf : ℕ → ℕ) (j n : ℕ) :
    renderRow s cam w h buf j n =
      if n / w = j then pixelValue s cam w h (n % w) j else buf n := by
  rw [renderRow, foldl_update_row_apply s cam w h j (List.range w)
    (fun i hi => List.mem_range.mp hi) buf n]
  by_cases hd : n / w = j
  · have h0 : j * w + n % w = n := by
      rw [Nat.mul_comm, ← hd]
      exact Nat.div_add_mod n w
    rw [if_pos (⟨n % w, List.mem_range.mpr (Nat.mod_lt n hw), by omega⟩ :
        ∃ i ∈ List.range w, n = j * w + i), if_pos hd]
    have h2 : n - j * w = n % w := by omega
    rw [h2]
  · rw [if_neg ?_, if_neg hd]
    rintro ⟨i, hmem, hni⟩
    exact hd (by rw [hni, rowIdx_div j (List.mem_range.mp hmem)])

/-- Pointwise description of a scheduled render: a cell's value depends only
on whether its row is in the schedule, never on the order or multiplicity of
the rows. -/
lemma renderSched_foldl_apply (s : Scene) (cam : Camera) (w h : ℕ)
    (hw : 0 < w) (rows : List ℕ) :
    ∀ (buf : ℕ → ℕ) (n : ℕ),
      (rows.foldl (renderRow s cam w h) buf) n =
      if n / w ∈ rows then pixelValue s cam w h (n % w) (n / w) else buf n := by
  induction rows with
  | nil =>
    intro buf n
    simp
  | cons j0 rest ih =>
    intro buf n
    rw [List.foldl_cons, ih]
    by_cases hm : n / w ∈ rest
    · rw [if_pos hm, if_pos (List.mem_cons_of_mem j0 hm)]
    · rw [if_neg hm, renderRow_apply s cam w h hw]
      by_cases he : n / w = j0
      · rw [if_pos he, if_pos (List.mem_cons.mpr (Or.inl he)), he]
      · rw [if_neg he, if_neg ?_]
        intro hmem
        rcases List.mem_cons.mp hmem with h0 | h0
        · exact he h0
        · exact hm h0

/-- A zero-width render writes nothing under any schedule. -/
lemma renderSched_zero_width (s : Scene) (cam : Camera) (h : ℕ)
    (rows : List ℕ) :
    ∀ buf : ℕ → ℕ, rows.foldl (renderRow s cam 0 h) buf = buf := by
  induction rows with
  | nil => intro buf; rfl
  | cons j0 rest ih =>
    intro buf
    rw [List.foldl_cons]
    have : renderRow s cam 0 h buf j0 = buf := rfl
    rw [this, ih]

/-- CLAIM C9: the sample stored at row-major index `j*width + i` is the
traced color of pixel `(i, j)` clamped per channel to `[0,1]`, scaled by
255.99, truncated to an 8-bit integer per lane, and packed with a fully
opaque alpha byte (the stored word's top byte is 0xFF). -/
theorem pixel_sample_contract (s : Scene) (cam : Camera) (w h i j : ℕ)
    (hi : i < w) (hj : j < h) :
    Renderer.render s cam w h (j * w + i) =
      0xFF * 2 ^ 24 + toByte (pixelColor s cam w h i j).x * 2 ^ 16
        + toByte (pixelColor s cam w h i j).y * 2 ^ 8
        + toByte (pixelColor s cam w h i j).z
    ∧ toByte (pixelColor s cam w h i j).x < 256
    ∧ toByte (pixelColor s cam w h i j).y < 256
    ∧ toByte (pixelColor s cam w h i j).z < 256
    ∧ Renderer.render s cam w h (j * w + i) / 2 ^ 24 = 0xFF := by
  have hw : 0 < w := by omega
  obtain ⟨hx, hy, hz⟩ := pixelColor_le_one s cam w h i j
  have bx := toByte_lt_256 hx
  have bby := toByte_lt_256 hy
  have bz := toByte_lt_256 hz
  have hr : Renderer.render s cam w h (j * w + i) = pixelValue s cam w h i j := by
    rw [Renderer.render, renderSched, renderSched_foldl_apply s cam w h hw,
      rowIdx_div j hi, rowIdx_mod j hi, if_pos (List.mem_range.mpr hj)]
  refine ⟨by rw [hr, pixelValue_eq], bx, bby, bz, ?_⟩
  rw [hr, pixelValue_eq]
  have e24 : (2 : ℕ) ^ 24 = 16777216 := by norm_num
  have e16 : (2 : ℕ) ^ 16 = 65536 := by norm_num
  have e8 : (2 : ℕ) ^ 8 = 256 := by norm_num
  rw [e24, e16, e8]
  omega

/-- Witness for C9: the alpha byte of the concrete 2-by-2 render's first
pixel is fully opaque. -/
theorem pixel_sample_contract_witness :
    Renderer.render scene0 camera0 2 2 (0 * 2 + 0) / 2 ^ 24 = 0xFF :=
  (pixel_sample_contract scene0 camera0 2 2 0 0 (by norm_num)
    (by norm_num)).2.2.2.2

/-- CLAIM C10: rendering is a pure function of scene, camera, width, and
height: a scheduled render's buffer depends only on which rows are covered,
never on the order or multiplicity with which worker tasks process them, so
a 1-worker schedule and any N-worker interleaving of the same rows produce
identical buffers; the sequential render is the `List.range h` schedule. -/
theorem render_deterministic :
    (∀ (s : Scene) (cam : Camera) (w h : ℕ) (rows1 rows2 : List ℕ),
      (∀ j, j ∈ rows1 ↔ j ∈ rows2) →
      renderSched s cam w h rows1 = renderSched s cam w h rows2)
    ∧ (∀ (s : Scene) (cam : Camera) (w h : ℕ),
        Renderer.render s cam w h = renderSched s cam w h (List.range h)) := by
  constructor
  · intro s cam w h rows1 rows2 hmem
    funext n
    rcases Nat.eq_zero_or_pos w with hw | hw
    · subst hw
      rw [renderSched, renderSched, renderSched_zero_width s cam h rows1,
        renderSched_zero_width s cam h rows2]
    · rw [renderSched, renderSched, renderSched_foldl_apply s cam w h hw,
        renderSched_foldl_apply s cam w h hw, if_congr (hmem (n / w)) rfl rfl]
  · intro s cam w h
    rfl

/-- Witness for C10: two schedules covering the same rows in different
orders and multiplicities yield identical buffers. -/
theorem render_deterministic_witness :
    renderSched scene0 camera0 2 2 [0, 1] = renderSched scene0 camera0 2 2 [1, 0, 0] :=
  render_deterministic.1 scene0 camera0 2 2 [0, 1] [1, 0, 0]
    (by
      intro j
      simp only [List.mem_cons, List.not_mem_nil, or_false]
      tauto)
